import Mathlib

/-!
Shallow embedding of `src/Thermo_Physical/stream.py`.

Numeric values are modelled as rationals; Python dictionaries (which
preserve insertion order and have unique keys) are modelled as ordered
association lists; operations that can raise a Python exception return
`Option`, with `none` standing for the raised exception.  The CoolProp
property engine is an external collaborator and is modelled as a record
of query functions that may fail.
-/

/-- A Python dict mapping component names to numbers, as an ordered
association list. -/
abbrev Dict := List (String × ℚ)

/-- Optional dict lookup: the value at the first matching key. -/
def dictGetOpt : Dict → String → Option ℚ
  | [], _ => none
  | (k', v) :: rest, k => if k' = k then some v else dictGetOpt rest k

/-- Python `d.get(k, dflt)`. -/
def dictGet (d : Dict) (k : String) (dflt : ℚ) : ℚ := (dictGetOpt d k).getD dflt

/-- Python `list(d.keys())`. -/
def dictKeys (d : Dict) : List String := d.map Prod.fst

/-- Python `list(d.values())`. -/
def dictValues (d : Dict) : List ℚ := d.map Prod.snd

/-- The sum of a dict's values. -/
def valuesSum (d : Dict) : ℚ := (dictValues d).sum

/-- The dict comprehension `{key: comp * flow for key, comp in d.items()}`. -/
def scaleDict (d : Dict) (flow : ℚ) : Dict := d.map (fun kv => (kv.1, kv.2 * flow))

/-- Python `new = d.copy(); new.update(e)`: values of keys present in `e`
overwrite in place, keys only in `e` are appended in their order. -/
def dictUpdate (d e : Dict) : Dict :=
  d.map (fun kv => (kv.1, dictGet e kv.1 kv.2)) ++
    e.filter (fun kv => !(dictKeys d).contains kv.1)

/-- Python division, raising `ZeroDivisionError` on a zero divisor. -/
def pydiv (a b : ℚ) : Option ℚ := if b = 0 then none else some (a / b)

/-- Python `list.index`, raising `ValueError` when the value is absent. -/
def pyindex (l : List ℚ) (x : ℚ) : Option Nat :=
  if x ∈ l then some (l.indexOf x) else none

/-- The loop
`for key in new: new[key] = (self_comp.get(key,0) + other_comp.get(key,0)) / new_flow`.
All divisors are the same `new_flow`, so the loop either rewrites every
value or raises on its first iteration leaving `new` unchanged. -/
def normalizeDict (self_comp other_comp new : Dict) (new_flow : ℚ) : Option Dict :=
  new.mapM (fun kv =>
    (pydiv (dictGet self_comp kv.1 0 + dictGet other_comp kv.1 0) new_flow).map
      (fun v => (kv.1, v)))

/-- CPython `bisect_left` loop.  The last argument is explicit fuel
bounding the number of loop iterations; `hi - lo` strictly decreases each
iteration, so any fuel of at least `hi - lo` yields the loop's result. -/
def bisectLeftAux (a : List ℚ) (x : ℚ) : Nat → Nat → Nat → Nat
  | lo, _, 0 => lo
  | lo, hi, n + 1 =>
    if lo < hi then
      if a.getD ((lo + hi) / 2) 0 < x then bisectLeftAux a x ((lo + hi) / 2 + 1) hi n
      else bisectLeftAux a x lo ((lo + hi) / 2) n
    else lo

/-- `bisect.bisect_left(a, x)` with the default bounds `0` and `len(a)`. -/
def bisect_left (a : List ℚ) (x : ℚ) : Nat := bisectLeftAux a x 0 a.length a.length

/-- The CoolProp output keys used by the source. -/
inductive PropKey where
  | iPhase | iQ | iDmass | iDmolar | iHmass | iHmolar | iCpmass | iCpmolar
  | iviscosity | iconductivity
deriving DecidableEq

/-- The `state` dictionary: temperature, pressure and flow. -/
structure StreamState where
  temp : ℚ
  pres : ℚ
  flow : ℚ
deriving DecidableEq

/-- The CoolProp property engine, modelled as a record of query functions
on the ordered component names and mole fractions; a `none` result stands
for a raised CoolProp exception.  `mkState` covers `AbstractState`
creation together with `set_mole_fractions`; `buildEnvelope` covers
`build_phase_envelope` plus `get_phase_envelope_data`, returning the
`hmolar_liq` and `T` branches. -/
structure PropEngine where
  mkState : List String → List ℚ → Option Unit
  update : List String → List ℚ → ℚ → ℚ → Option Unit
  keyedOutput : List String → List ℚ → ℚ → ℚ → PropKey → Option ℚ
  buildEnvelope : List String → List ℚ → Option (List ℚ × List ℚ)

/-- The `material_stream` object: composition, state, the derived
properties fetched in `__init__`, and the scratch attributes set by
`takeClosest`.  `Vis`/`cond` are `none` when the corresponding CoolProp
query failed (the source stores the sentinel `[]` there); `myList` and
`myNumber` are `none` before the first `takeClosest` call. -/
structure material_stream where
  composition : Dict
  state : StreamState
  Phase : ℚ
  Q : ℚ
  Dmass : ℚ
  Dmolar : ℚ
  Hmass : ℚ
  Hmolar : ℚ
  Cpmass : ℚ
  Cpmolar : ℚ
  Vis : Option ℚ
  cond : Option ℚ
  myList : Option (List ℚ)
  myNumber : Option ℚ
deriving DecidableEq

/-- `material_stream.__init__`: store composition and state, query the
engine for the required properties (any failure aborts the construction,
returning nothing), and fetch viscosity and conductivity each inside its
own `try`/`except`, absent on failure. -/
def material_stream.init (E : PropEngine) (composition : Dict)
    (state : StreamState) : Option material_stream :=
  match E.mkState (dictKeys composition) (dictValues composition) with
  | none => none
  | some _ =>
    match E.update (dictKeys composition) (dictValues composition)
        state.pres state.temp with
    | none => none
    | some _ =>
      match E.keyedOutput (dictKeys composition) (dictValues composition)
              state.pres state.temp PropKey.iPhase,
            E.keyedOutput (dictKeys composition) (dictValues composition)
              state.pres state.temp PropKey.iQ,
            E.keyedOutput (dictKeys composition) (dictValues composition)
              state.pres state.temp PropKey.iDmass,
            E.keyedOutput (dictKeys composition) (dictValues composition)
              state.pres state.temp PropKey.iDmolar,
            E.keyedOutput (dictKeys composition) (dictValues composition)
              state.pres state.temp PropKey.iHmass,
            E.keyedOutput (dictKeys composition) (dictValues composition)
              state.pres state.temp PropKey.iHmolar,
            E.keyedOutput (dictKeys composition) (dictValues composition)
              state.pres state.temp PropKey.iCpmass,
            E.keyedOutput (dictKeys composition) (dictValues composition)
              state.pres state.temp PropKey.iCpmolar with
      | some ph, some q, some dmass, some dmolar, some hmass, some hmolar,
          some cpmass, some cpmolar =>
        some { composition := composition, state := state,
               Phase := ph, Q := q, Dmass := dmass, Dmolar := dmolar,
               Hmass := hmass, Hmolar := hmolar, Cpmass := cpmass,
               Cpmolar := cpmolar,
               Vis := E.keyedOutput (dictKeys composition)
                 (dictValues composition) state.pres state.temp
                 PropKey.iviscosity,
               cond := E.keyedOutput (dictKeys composition)
                 (dictValues composition) state.pres state.temp
                 PropKey.iconductivity,
               myList := none, myNumber := none }
      | _, _, _, _, _, _, _, _ => none

/-- The body of `takeClosest` after the scratch attributes are set:
binary-search insertion point, the two boundary cases, and the closer of
the two straddling elements with ties going to `before`.  `none` models
the `IndexError` raised by `myList[0]` on an empty list. -/
def takeClosestCore (myList : List ℚ) (myNumber : ℚ) : Option ℚ :=
  let pos := bisect_left myList myNumber
  if pos = 0 then myList.get? 0
  else if pos = myList.length then myList.get? (myList.length - 1)
  else
    match myList.get? (pos - 1), myList.get? pos with
    | some before, some after =>
      if after - myNumber < myNumber - before then some after else some before
    | _, _ => none

/-- `material_stream.takeClosest`: stores its arguments as the attributes
`self.myList` and `self.myNumber` (this happens before any possible
`IndexError`), then computes the closest value.  Returns the updated
object together with the result. -/
def material_stream.takeClosest (self : material_stream) (myList : List ℚ)
    (myNumber : ℚ) : material_stream × Option ℚ :=
  ({ self with myList := some myList, myNumber := some myNumber },
    takeClosestCore myList myNumber)

/-- The envelope-based temperature resolution in `__add__`: create a
CoolProp state for the mixed composition, build the phase envelope, run
`self.takeClosest` (which updates `self`'s scratch attributes) against the
saturated-liquid enthalpies, and read the saturation temperature at the
index of the matched enthalpy.  Returns the possibly-updated `self` and
the temperature, `none` standing for whichever exception was raised. -/
def resolveTemp (E : PropEngine) (self : material_stream) (new : Dict)
    (new_Hmolar : ℚ) : material_stream × Option ℚ :=
  match E.mkState (dictKeys new) (dictValues new) with
  | none => (self, none)
  | some _ =>
    match E.buildEnvelope (dictKeys new) (dictValues new) with
    | none => (self, none)
    | some (hmolar_liq, T) =>
      match material_stream.takeClosest self hmolar_liq new_Hmolar with
      | (self', none) => (self', none)
      | (self', some val) =>
        match pyindex hmolar_liq val with
        | none => (self', none)
        | some ind => (self', T.get? ind)

/-- Outcome of the `try` block of `__add__`.  On failure the caught
exception is discarded; the constructor records which of the local
variables `new` and `new_state` had been bound by then (`none` means the
variable is still unbound, so using it afterwards raises `NameError`). -/
inductive AddTryResult where
  | ok (self' : material_stream) (new : Dict) (new_state : StreamState)
  | failed (self' : material_stream) (new : Option Dict)
      (new_state : Option StreamState)
deriving DecidableEq

/-- The body of `__add__` up to and including the `try`/`except`. -/
def material_stream.addTry (E : PropEngine) (self other : material_stream) :
    AddTryResult :=
  let self_flow := self.state.flow
  let other_flow := other.state.flow
  let new_flow := self_flow + other_flow
  let self_comp := scaleDict self.composition self_flow
  let other_comp := scaleDict other.composition other_flow
  let new0 := dictUpdate self_comp other_comp
  match normalizeDict self_comp other_comp new0 new_flow with
  | none => .failed self (some new0) none
  | some new =>
    let new_state :=
      { self.state with
          flow := new_flow,
          pres := if self.state.pres ≤ other.state.pres then self.state.pres
                  else other.state.pres }
    match pydiv (self.Hmolar * self_flow + other.Hmolar * other_flow)
        new_flow with
    | none => .failed self (some new) (some new_state)
    | some new_Hmolar =>
      match resolveTemp E self new new_Hmolar with
      | (self', none) => .failed self' (some new) (some new_state)
      | (self', some t) => .ok self' new { new_state with temp := t }

/-- `__add__`: run the `try` block, then `return material_stream(new, new_state)`.
Result: the possibly-updated `self`, the untouched `other`, and the
constructed stream (`none` when the final construction raises, including
the `NameError` cases where `new` or `new_state` was never bound). -/
def material_stream.add (E : PropEngine) (self other : material_stream) :
    material_stream × material_stream × Option material_stream :=
  match material_stream.addTry E self other with
  | .ok self' new new_state => (self', other, material_stream.init E new new_state)
  | .failed self' (some new) (some new_state) =>
    (self', other, material_stream.init E new new_state)
  | .failed self' _ _ => (self', other, none)

/-- The mixed composition computed by a successful run of the
normalization loop: the key union of the flow-scaled maps, each key
mapped to its summed contribution over the total flow. -/
def mixedDict (A B : material_stream) : Dict :=
  (dictUpdate (scaleDict A.composition A.state.flow)
      (scaleDict B.composition B.state.flow)).map
    (fun kv => (kv.1,
      (dictGet (scaleDict A.composition A.state.flow) kv.1 0 +
        dictGet (scaleDict B.composition B.state.flow) kv.1 0) /
        (A.state.flow + B.state.flow)))

/-- The mixture molar enthalpy from the isenthalpic energy balance. -/
def mixHmolar (A B : material_stream) : ℚ :=
  (A.Hmolar * A.state.flow + B.Hmolar * B.state.flow) /
    (A.state.flow + B.state.flow)

/-- The mixed state before the temperature is resolved: `self.state` with
the total flow and the lower of the two pressures, the temperature still
`A`'s. -/
def mixState0 (A B : material_stream) : StreamState :=
  { A.state with
      flow := A.state.flow + B.state.flow,
      pres := if A.state.pres ≤ B.state.pres then A.state.pres
              else B.state.pres }

/-- Agreement on every attribute of a stream except the `takeClosest`
scratch pair `myList`/`myNumber`. -/
def sameCore (s s' : material_stream) : Prop :=
  s.composition = s'.composition ∧ s.state = s'.state ∧ s.Phase = s'.Phase ∧
  s.Q = s'.Q ∧ s.Dmass = s'.Dmass ∧ s.Dmolar = s'.Dmolar ∧
  s.Hmass = s'.Hmass ∧ s.Hmolar = s'.Hmolar ∧ s.Cpmass = s'.Cpmass ∧
  s.Cpmolar = s'.Cpmolar ∧ s.Vis = s'.Vis ∧ s.cond = s'.cond

/-- A concrete engine whose queries always succeed, for instantiating the
theorems at evaluable inputs. -/
def testEngine : PropEngine where
  mkState := fun _ _ => some ()
  update := fun _ _ _ _ => some ()
  keyedOutput := fun _ _ _ _ _ => some 1
  buildEnvelope := fun _ _ => some ([1, 3, 5, 7], [300, 350, 400, 450])

/-- A concrete engine whose phase-envelope construction fails. -/
def failEnvEngine : PropEngine where
  mkState := fun _ _ => some ()
  update := fun _ _ _ _ => some ()
  keyedOutput := fun _ _ _ _ _ => some 1
  buildEnvelope := fun _ _ => none

/-- A concrete engine for which only the viscosity query fails. -/
def visFailEngine : PropEngine where
  mkState := fun _ _ => some ()
  update := fun _ _ _ _ => some ()
  keyedOutput := fun _ _ _ _ k =>
    if k = PropKey.iviscosity then none else some 1
  buildEnvelope := fun _ _ => some ([1, 3, 5, 7], [300, 350, 400, 450])

/-- A concrete water/acetone stream fixture. -/
def streamA : material_stream where
  composition := [("Water", 7/10), ("Acetone", 3/10)]
  state := { temp := 391, pres := 400000, flow := 2 }
  Phase := 0
  Q := 0
  Dmass := 1
  Dmolar := 1
  Hmass := 1
  Hmolar := 2
  Cpmass := 1
  Cpmolar := 1
  Vis := none
  cond := none
  myList := none
  myNumber := none

/-- A concrete water/ethanol stream fixture. -/
def streamB : material_stream where
  composition := [("Water", 7/10), ("Ethanol", 3/10)]
  state := { temp := 300, pres := 101000, flow := 2 }
  Phase := 0
  Q := 0
  Dmass := 1
  Dmolar := 1
  Hmass := 1
  Hmolar := 4
  Cpmass := 1
  Cpmolar := 1
  Vis := none
  cond := none
  myList := none
  myNumber := none

/-- A pure-water stream fixture with zero flow. -/
def streamZeroA : material_stream :=
  { streamA with
    composition := [("Water", 1)],
    state := { temp := 320, pres := 101325, flow := 0 } }

/-- A second pure-water stream fixture with zero flow. -/
def streamZeroB : material_stream :=
  { streamB with
    composition := [("Water", 1)],
    state := { temp := 300, pres := 101325, flow := 0 } }

/-! ### Association-list lemmas -/

lemma dictGetOpt_map_entry (d : Dict) (f : String → ℚ → ℚ) (k : String) :
    dictGetOpt (d.map fun kv => (kv.1, f kv.1 kv.2)) k =
      (dictGetOpt d k).map (f k) := by
  induction d with
  | nil => rfl
  | cons kv rest ih =>
    obtain ⟨k', v⟩ := kv
    by_cases h : k' = k
    · subst h; simp [dictGetOpt]
    · simp [dictGetOpt, h, ih]

lemma dictGetOpt_scale (d : Dict) (fl : ℚ) (k : String) :
    dictGetOpt (scaleDict d fl) k = (dictGetOpt d k).map (· * fl) :=
  dictGetOpt_map_entry d (fun _ v => v * fl) k

lemma dictGet_scale (d : Dict) (fl : ℚ) (k : String) :
    dictGet (scaleDict d fl) k 0 = dictGet d k 0 * fl := by
  unfold dictGet
  rw [dictGetOpt_scale]
  cases dictGetOpt d k <;> simp

lemma dictGetOpt_append (d e : Dict) (k : String) :
    dictGetOpt (d ++ e) k =
      if (dictGetOpt d k).isSome then dictGetOpt d k else dictGetOpt e k := by
  induction d with
  | nil => simp [dictGetOpt]
  | cons kv rest ih =>
    obtain ⟨k', v⟩ := kv
    by_cases h : k' = k <;> simp [dictGetOpt, h, ih]

lemma dictGetOpt_filter_key (e : Dict) (p : String → Bool) (k : String) :
    dictGetOpt (e.filter fun kv => p kv.1) k =
      if p k then dictGetOpt e k else none := by
  induction e with
  | nil => simp [dictGetOpt]
  | cons kv rest ih =>
    obtain ⟨k', v⟩ := kv
    by_cases h : k' = k
    · subst h
      by_cases hp : p k' <;> simp [List.filter_cons, dictGetOpt, hp, ih]
    · by_cases hp : p k' <;> simp [List.filter_cons, dictGetOpt, h, hp, ih]

lemma dictGetOpt_isSome_iff_mem (d : Dict) (k : String) :
    (dictGetOpt d k).isSome ↔ k ∈ dictKeys d := by
  induction d with
  | nil => simp [dictGetOpt, dictKeys]
  | cons kv rest ih =>
    obtain ⟨k', v⟩ := kv
    by_cases h : k' = k
    · subst h; simp [dictGetOpt, dictKeys]
    · have h2 : ¬ k = k' := fun hk => h hk.symm
      simp [dictGetOpt, dictKeys, h, h2, ih]

lemma keys_contains_iff (d : Dict) (k : String) :
    ((dictKeys d).contains k = true) ↔ k ∈ dictKeys d := by
  simp [List.contains]

lemma dictGetOpt_update_isSome (d e : Dict) (k : String) :
    (dictGetOpt (dictUpdate d e) k).isSome ↔
      (dictGetOpt d k).isSome ∨ (dictGetOpt e k).isSome := by
  unfold dictUpdate
  rw [dictGetOpt_append, dictGetOpt_map_entry d (fun a b => dictGet e a b) k,
    dictGetOpt_filter_key e (fun a => !(dictKeys d).contains a) k]
  by_cases hd : (dictGetOpt d k).isSome
  · simp [hd]
  · have hk : k ∉ dictKeys d := fun hm => hd ((dictGetOpt_isSome_iff_mem d k).mpr hm)
    have hc : (dictKeys d).contains k = false := by
      cases hcc : (dictKeys d).contains k
      · rfl
      · exact absurd ((keys_contains_iff d k).mp hcc) hk
    simp [hd, hc, hk]

lemma dictGetOpt_mixedDict (A B : material_stream) (k : String) :
    dictGetOpt (mixedDict A B) k =
      if (dictGetOpt A.composition k).isSome ∨ (dictGetOpt B.composition k).isSome
      then some ((dictGet A.composition k 0 * A.state.flow +
                  dictGet B.composition k 0 * B.state.flow) /
                 (A.state.flow + B.state.flow))
      else none := by
  have hme := dictGetOpt_map_entry
      (dictUpdate (scaleDict A.composition A.state.flow)
        (scaleDict B.composition B.state.flow))
      (fun a _ => (dictGet (scaleDict A.composition A.state.flow) a 0 +
        dictGet (scaleDict B.composition B.state.flow) a 0) /
        (A.state.flow + B.state.flow)) k
  simp only [] at hme
  unfold mixedDict
  rw [hme]
  by_cases h : (dictGetOpt A.composition k).isSome ∨ (dictGetOpt B.composition k).isSome
  · have hu : (dictGetOpt (dictUpdate (scaleDict A.composition A.state.flow)
        (scaleDict B.composition B.state.flow)) k).isSome := by
      rw [dictGetOpt_update_isSome, dictGetOpt_scale, dictGetOpt_scale]
      simpa using h
    obtain ⟨v, hv⟩ := Option.isSome_iff_exists.mp hu
    rw [hv]
    simp [h, dictGet_scale]
  · have hu : ¬ (dictGetOpt (dictUpdate (scaleDict A.composition A.state.flow)
        (scaleDict B.composition B.state.flow)) k).isSome := by
      rw [dictGetOpt_update_isSome, dictGetOpt_scale, dictGetOpt_scale]
      simpa using h
    rw [Option.not_isSome_iff_eq_none] at hu
    rw [hu]
    simp [h]

/-! ### Characterizing the mixing computation -/

lemma pydiv_of_ne (a b : ℚ) (hb : b ≠ 0) : pydiv a b = some (a / b) := by
  simp [pydiv, hb]

lemma pydiv_eq_some (a b v : ℚ) (h : pydiv a b = some v) : v = a / b := by
  unfold pydiv at h
  split at h
  · exact absurd h (by simp)
  · exact (Option.some.inj h).symm

lemma normalizeDict_eq_some (a b : Dict) (F : ℚ) :
    ∀ (n nw : Dict), normalizeDict a b n F = some nw →
      nw = n.map fun kv => (kv.1, (dictGet a kv.1 0 + dictGet b kv.1 0) / F) := by
  intro n
  induction n with
  | nil =>
    intro nw h
    unfold normalizeDict at h
    rw [List.mapM_nil] at h
    simp only [Option.pure_def, Option.some.injEq] at h
    simp [← h]
  | cons kv rest ih =>
    intro nw h
    unfold normalizeDict at h
    rw [List.mapM_cons] at h
    simp only [Option.bind_eq_bind, Option.bind_eq_some, Option.map_eq_some',
      Option.pure_def, Option.some.injEq] at h
    obtain ⟨hd, ⟨v, hv, hhd⟩, tl, htl, hnw⟩ := h
    have htl' : normalizeDict a b rest F = some tl := htl
    have := ih tl htl'
    subst this
    have hv' := pydiv_eq_some _ _ _ hv
    subst hv'
    simp [← hnw, ← hhd]

lemma normalizeDict_of_ne_zero (a b n : Dict) (F : ℚ) (hF : F ≠ 0) :
    normalizeDict a b n F =
      some (n.map fun kv => (kv.1, (dictGet a kv.1 0 + dictGet b kv.1 0) / F)) := by
  induction n with
  | nil =>
    unfold normalizeDict
    rw [List.mapM_nil]
    rfl
  | cons kv rest ih =>
    unfold normalizeDict at ih ⊢
    rw [List.mapM_cons, pydiv_of_ne _ _ hF, ih]
    rfl

lemma addTry_ok_char (E : PropEngine) (A B self' : material_stream)
    (nw : Dict) (ns : StreamState)
    (h : material_stream.addTry E A B = .ok self' nw ns) :
    nw = mixedDict A B ∧ ns.flow = A.state.flow + B.state.flow ∧
      ns.pres = (if A.state.pres ≤ B.state.pres then A.state.pres
                 else B.state.pres) := by
  simp only [material_stream.addTry] at h
  rcases hnorm : normalizeDict (scaleDict A.composition A.state.flow)
      (scaleDict B.composition B.state.flow)
      (dictUpdate (scaleDict A.composition A.state.flow)
        (scaleDict B.composition B.state.flow))
      (A.state.flow + B.state.flow) with _ | nw0
  · rw [hnorm] at h
    simp at h
  · rw [hnorm] at h
    have hnw0 : nw0 = mixedDict A B := normalizeDict_eq_some _ _ _ _ _ hnorm
    rcases hdiv : pydiv (A.Hmolar * A.state.flow + B.Hmolar * B.state.flow)
        (A.state.flow + B.state.flow) with _ | newH
    · rw [hdiv] at h
      simp at h
    · rw [hdiv] at h
      dsimp only at h
      rcases hres : resolveTemp E A nw0 newH with ⟨self'', t?⟩
      rw [hres] at h
      rcases t? with _ | t
      · simp at h
      · simp only [AddTryResult.ok.injEq] at h
        refine ⟨h.2.1.symm.trans hnw0, ?_, ?_⟩ <;> rw [← h.2.2]

lemma addTry_failed_char (E : PropEngine) (A B self' : material_stream)
    (nw : Dict) (ns : StreamState)
    (h : material_stream.addTry E A B = .failed self' (some nw) (some ns)) :
    nw = mixedDict A B ∧ ns = mixState0 A B := by
  simp only [material_stream.addTry] at h
  rcases hnorm : normalizeDict (scaleDict A.composition A.state.flow)
      (scaleDict B.composition B.state.flow)
      (dictUpdate (scaleDict A.composition A.state.flow)
        (scaleDict B.composition B.state.flow))
      (A.state.flow + B.state.flow) with _ | nw0
  · rw [hnorm] at h
    simp at h
  · rw [hnorm] at h
    have hnw0 : nw0 = mixedDict A B := normalizeDict_eq_some _ _ _ _ _ hnorm
    rcases hdiv : pydiv (A.Hmolar * A.state.flow + B.Hmolar * B.state.flow)
        (A.state.flow + B.state.flow) with _ | newH
    · rw [hdiv] at h
      simp only [AddTryResult.failed.injEq, Option.some.injEq] at h
      exact ⟨h.2.1.symm.trans hnw0, h.2.2.symm.trans rfl⟩
    · rw [hdiv] at h
      dsimp only at h
      rcases hres : resolveTemp E A nw0 newH with ⟨self'', t?⟩
      rw [hres] at h
      rcases t? with _ | t
      · simp only [AddTryResult.failed.injEq, Option.some.injEq] at h
        exact ⟨h.2.1.symm.trans hnw0, h.2.2.symm.trans rfl⟩
      · simp at h

lemma init_eq_some_fields (E : PropEngine) (c : Dict) (st : StreamState)
    (s : material_stream) (h : material_stream.init E c st = some s) :
    s.composition = c ∧ s.state = st := by
  unfold material_stream.init at h
  split at h
  · exact absurd h (by simp)
  · split at h
    · exact absurd h (by simp)
    · split at h
      · injection h with h'
        subst h'
        exact ⟨rfl, rfl⟩
      · exact absurd h (by simp)

lemma add_eq_some_cases (E : PropEngine) (A B S : material_stream)
    (h : (material_stream.add E A B).2.2 = some S) :
    S.composition = mixedDict A B ∧
    S.state.flow = A.state.flow + B.state.flow ∧
    S.state.pres = (if A.state.pres ≤ B.state.pres then A.state.pres
                    else B.state.pres) := by
  unfold material_stream.add at h
  rcases haddTry : material_stream.addTry E A B with ⟨self', nw, ns⟩ | ⟨self', onw, ons⟩
  · rw [haddTry] at h
    dsimp only at h
    obtain ⟨hnw, hflow, hpres⟩ := addTry_ok_char E A B self' nw ns haddTry
    obtain ⟨hcomp, hstate⟩ := init_eq_some_fields E nw ns S h
    exact ⟨hcomp.trans hnw, by rw [hstate, hflow], by rw [hstate, hpres]⟩
  · rw [haddTry] at h
    rcases onw with _ | nw
    · simp at h
    · rcases ons with _ | ns
      · simp at h
      · dsimp only at h
        obtain ⟨hnw, hns⟩ := addTry_failed_char E A B self' nw ns haddTry
        obtain ⟨hcomp, hstate⟩ := init_eq_some_fields E nw ns S h
        refine ⟨hcomp.trans hnw, ?_, ?_⟩ <;> simp [hstate, hns, mixState0]

lemma pyindex_of_mem (l : List ℚ) (x : ℚ) (h : x ∈ l) :
    pyindex l x = some (l.indexOf x) := by
  simp [pyindex, h]

lemma takeClosestCore_mem (l : List ℚ) (x v : ℚ)
    (h : takeClosestCore l x = some v) : v ∈ l := by
  unfold takeClosestCore at h
  dsimp only at h
  split at h
  · exact List.get?_mem h
  · split at h
    · exact List.get?_mem h
    · split at h
      · rename_i before after hb ha
        split at h
        · cases h; exact List.get?_mem ha
        · cases h; exact List.get?_mem hb
      · exact absurd h (by simp)

lemma addTry_resolve (E : PropEngine) (A B : material_stream)
    (hflow : A.state.flow + B.state.flow ≠ 0) :
    material_stream.addTry E A B =
      (match resolveTemp E A (mixedDict A B) (mixHmolar A B) with
       | (self', none) =>
         .failed self' (some (mixedDict A B)) (some (mixState0 A B))
       | (self', some t) =>
         .ok self' (mixedDict A B) { mixState0 A B with temp := t }) := by
  have hmix : normalizeDict (scaleDict A.composition A.state.flow)
      (scaleDict B.composition B.state.flow)
      (dictUpdate (scaleDict A.composition A.state.flow)
        (scaleDict B.composition B.state.flow))
      (A.state.flow + B.state.flow) = some (mixedDict A B) :=
    (normalizeDict_of_ne_zero _ _ _ _ hflow).trans rfl
  have hdiv : pydiv (A.Hmolar * A.state.flow + B.Hmolar * B.state.flow)
      (A.state.flow + B.state.flow) = some (mixHmolar A B) :=
    (pydiv_of_ne _ _ hflow).trans rfl
  simp only [material_stream.addTry]
  rw [hmix]
  dsimp only
  rw [hdiv]
  dsimp only
  rcases hres : resolveTemp E A (mixedDict A B) (mixHmolar A B) with ⟨self', t?⟩
  rcases t? with _ | t <;> rfl

lemma sameCore_refl (s : material_stream) : sameCore s s :=
  ⟨rfl, rfl, rfl, rfl, rfl, rfl, rfl, rfl, rfl, rfl, rfl, rfl⟩

lemma takeClosest_sameCore (s : material_stream) (l : List ℚ) (x : ℚ) :
    sameCore (material_stream.takeClosest s l x).1 s :=
  ⟨rfl, rfl, rfl, rfl, rfl, rfl, rfl, rfl, rfl, rfl, rfl, rfl⟩

lemma resolveTemp_sameCore (E : PropEngine) (A : material_stream) (nw : Dict)
    (nh : ℚ) : sameCore (resolveTemp E A nw nh).1 A := by
  unfold resolveTemp
  cases hm : E.mkState (dictKeys nw) (dictValues nw) with
  | none => exact sameCore_refl A
  | some u =>
    cases he : E.buildEnvelope (dictKeys nw) (dictValues nw) with
    | none => exact sameCore_refl A
    | some p =>
      rcases p with ⟨hl, T⟩
      dsimp only
      rcases htc : material_stream.takeClosest A hl nh with ⟨self', v?⟩
      have hself : sameCore self' A := by
        have h1 : (material_stream.takeClosest A hl nh).1 = self' := by rw [htc]
        rw [← h1]
        exact takeClosest_sameCore A hl nh
      rcases v? with _ | val
      · exact hself
      · dsimp only
        cases pyindex hl val with
        | none => exact hself
        | some ind => exact hself

lemma add_self_sameCore (E : PropEngine) (A B : material_stream) :
    sameCore (material_stream.add E A B).1 A := by
  unfold material_stream.add
  rcases haddTry : material_stream.addTry E A B with ⟨self', nw, ns⟩ | ⟨self', onw, ons⟩
  · dsimp only
    -- from the `addTry` structure, `self'` is `A` or the first component of
    -- a `resolveTemp` call on `A`
    have : sameCore self' A := by
      simp only [material_stream.addTry] at haddTry
      rcases hnorm : normalizeDict (scaleDict A.composition A.state.flow)
          (scaleDict B.composition B.state.flow)
          (dictUpdate (scaleDict A.composition A.state.flow)
            (scaleDict B.composition B.state.flow))
          (A.state.flow + B.state.flow) with _ | nw0
      · rw [hnorm] at haddTry; simp at haddTry
      · rw [hnorm] at haddTry
        dsimp only at haddTry
        rcases hdiv : pydiv (A.Hmolar * A.state.flow + B.Hmolar * B.state.flow)
            (A.state.flow + B.state.flow) with _ | newH
        · rw [hdiv] at haddTry; simp at haddTry
        · rw [hdiv] at haddTry
          dsimp only at haddTry
          rcases hres : resolveTemp E A nw0 newH with ⟨self'', t?⟩
          rw [hres] at haddTry
          rcases t? with _ | t
          · simp at haddTry
          · simp only [AddTryResult.ok.injEq] at haddTry
            rw [← haddTry.1]
            have h1 : (resolveTemp E A nw0 newH).1 = self'' := by rw [hres]
            rw [← h1]
            exact resolveTemp_sameCore E A nw0 newH
    exact this
  · have : sameCore self' A := by
      simp only [material_stream.addTry] at haddTry
      rcases hnorm : normalizeDict (scaleDict A.composition A.state.flow)
          (scaleDict B.composition B.state.flow)
          (dictUpdate (scaleDict A.composition A.state.flow)
            (scaleDict B.composition B.state.flow))
          (A.state.flow + B.state.flow) with _ | nw0
      · rw [hnorm] at haddTry
        simp only [AddTryResult.failed.injEq] at haddTry
        rw [← haddTry.1]
        exact sameCore_refl A
      · rw [hnorm] at haddTry
        dsimp only at haddTry
        rcases hdiv : pydiv (A.Hmolar * A.state.flow + B.Hmolar * B.state.flow)
            (A.state.flow + B.state.flow) with _ | newH
        · rw [hdiv] at haddTry
          simp only [AddTryResult.failed.injEq] at haddTry
          rw [← haddTry.1]
          exact sameCore_refl A
        · rw [hdiv] at haddTry
          dsimp only at haddTry
          rcases hres : resolveTemp E A nw0 newH with ⟨self'', t?⟩
          rw [hres] at haddTry
          rcases t? with _ | t
          · simp only [AddTryResult.failed.injEq] at haddTry
            rw [← haddTry.1]
            have h1 : (resolveTemp E A nw0 newH).1 = self'' := by rw [hres]
            rw [← h1]
            exact resolveTemp_sameCore E A nw0 newH
          · simp at haddTry
    rcases onw with _ | nw <;> rcases ons with _ | ns <;> exact this

/-! ### Claim theorems -/

/-- C2: for every two streams `A` and `B` with flows `fA` and `fB`, the
flow of the state of `combine(A,B)` equals `fA + fB` exactly (whenever the
combination returns a stream). -/
theorem add_flow_conservation (E : PropEngine) (A B : material_stream) :
    ∀ S, (material_stream.add E A B).2.2 = some S →
      S.state.flow = A.state.flow + B.state.flow :=
  fun S h => (add_eq_some_cases E A B S h).2.1

theorem add_flow_conservation_witness :
    ∃ S, (material_stream.add testEngine streamA streamB).2.2 = some S ∧
      S.state.flow = streamA.state.flow + streamB.state.flow := by
  rcases hS : (material_stream.add testEngine streamA streamB).2.2 with _ | S
  · exact absurd hS (by with_unfolding_all decide)
  · exact ⟨S, rfl, add_flow_conservation testEngine streamA streamB S hS⟩

/-- C5: for every two streams `A` and `B`, the pressure of the state of
`combine(A,B)` equals the minimum of `A`'s and `B`'s pressures (whenever
the combination returns a stream). -/
theorem add_pressure_min (E : PropEngine) (A B : material_stream) :
    ∀ S, (material_stream.add E A B).2.2 = some S →
      S.state.pres = min A.state.pres B.state.pres := by
  intro S h
  rw [(add_eq_some_cases E A B S h).2.2, min_def]

theorem add_pressure_min_witness :
    ∃ S, (material_stream.add testEngine streamA streamB).2.2 = some S ∧
      S.state.pres = min streamA.state.pres streamB.state.pres := by
  rcases hS : (material_stream.add testEngine streamA streamB).2.2 with _ | S
  · exact absurd hS (by with_unfolding_all decide)
  · exact ⟨S, rfl, add_pressure_min testEngine streamA streamB S hS⟩

/-- C1: with positive total flow, the composition of `combine(A,B)` is
defined on exactly the union of the component keys of `A` and `B`, and on
that union each fraction is `(a.get(k,0)*fA + b.get(k,0)*fB) / (fA+fB)`;
in particular a component present in only one stream still appears. -/
theorem add_composition_mix (E : PropEngine) (A B : material_stream)
    (hflow : 0 < A.state.flow + B.state.flow) :
    ∀ S, (material_stream.add E A B).2.2 = some S →
      (∀ k, (dictGetOpt S.composition k).isSome ↔
         ((dictGetOpt A.composition k).isSome ∨
          (dictGetOpt B.composition k).isSome)) ∧
      (∀ k, (dictGetOpt A.composition k).isSome ∨
            (dictGetOpt B.composition k).isSome →
        dictGetOpt S.composition k =
          some ((dictGet A.composition k 0 * A.state.flow +
                 dictGet B.composition k 0 * B.state.flow) /
                (A.state.flow + B.state.flow))) := by
  intro S h
  have hcomp := (add_eq_some_cases E A B S h).1
  constructor
  · intro k
    rw [hcomp, dictGetOpt_mixedDict]
    by_cases hk : (dictGetOpt A.composition k).isSome ∨
        (dictGetOpt B.composition k).isSome
    · simp [hk]
    · simp [hk]
  · intro k hk
    rw [hcomp, dictGetOpt_mixedDict, if_pos hk]

theorem add_composition_mix_witness :
    ∃ S, (material_stream.add testEngine streamA streamB).2.2 = some S ∧
      dictGetOpt S.composition "Ethanol" =
        some ((dictGet streamA.composition "Ethanol" 0 * streamA.state.flow +
               dictGet streamB.composition "Ethanol" 0 * streamB.state.flow) /
              (streamA.state.flow + streamB.state.flow)) := by
  rcases hS : (material_stream.add testEngine streamA streamB).2.2 with _ | S
  · exact absurd hS (by with_unfolding_all decide)
  · exact ⟨S, rfl,
      (add_composition_mix testEngine streamA streamB (by with_unfolding_all decide) S hS).2
        "Ethanol" (Or.inr (by with_unfolding_all decide))⟩

/-- C10: on the empty sequence the closest-value search returns no value
for any target: the `myList[0]` access raises `IndexError` (modelled as
`none`) instead of producing a first element. -/
theorem takeClosest_empty_fails (o : material_stream) (t : ℚ) :
    takeClosestCore [] t = none ∧
      (material_stream.takeClosest o [] t).2 = none := by
  exact ⟨rfl, rfl⟩

/-- C6 counterexample: the closest-value search is not state-free — it
stores its arguments on the object it is invoked on, so the object
differs after the call. -/
theorem takeClosest_state_counterexample :
    (material_stream.takeClosest streamA [1, 2] 1).1 ≠ streamA :=
  fun h => absurd (congrArg material_stream.myList h)
    (by with_unfolding_all decide)

/-- C6 amended: `combine(A,B)` returns `B` untouched and preserves every
attribute of `A` except the `takeClosest` scratch pair `myList`/`myNumber`
(composition, state and all derived-property fields are unchanged); the
closest-value search itself, however, records its arguments on the
invoking object. -/
theorem add_operands_frame (E : PropEngine) (A B : material_stream) :
    (material_stream.add E A B).2.1 = B ∧
      sameCore (material_stream.add E A B).1 A := by
  constructor
  · unfold material_stream.add
    split <;> rfl
  · exact add_self_sameCore E A B

set_option maxRecDepth 4000 in
/-- C4 counterexample: with two zero-flow streams the normalization step
raises `ZeroDivisionError` before `new_state` is bound; the exception is
caught and discarded, but step 6 then fails on the unbound `new_state`
(`NameError`), so the combine operation aborts with no result — the
failure does not lead to a completed operation. -/
theorem add_swallow_counterexample :
    material_stream.addTry testEngine streamZeroA streamZeroB =
      .failed streamZeroA (some [("Water", 0)]) none ∧
    (material_stream.add testEngine streamZeroA streamZeroB).2.2 = none := by
  constructor
  · with_unfolding_all rfl
  · with_unfolding_all decide

/-- C4 amended: when the total flow is nonzero and the envelope-based
temperature resolution fails, the failure is caught and discarded without
being reported; execution proceeds to step 6 and constructs the result
from the values computed before the failure: the mixed composition and
the mixed state whose temperature is still `A`'s original temperature. -/
theorem add_swallow_policy (E : PropEngine) (A B : material_stream)
    (hflow : A.state.flow + B.state.flow ≠ 0)
    (hfail : (resolveTemp E A (mixedDict A B) (mixHmolar A B)).2 = none) :
    material_stream.add E A B =
      ((resolveTemp E A (mixedDict A B) (mixHmolar A B)).1, B,
        material_stream.init E (mixedDict A B) (mixState0 A B)) := by
  unfold material_stream.add
  rw [addTry_resolve E A B hflow]
  rcases hres : resolveTemp E A (mixedDict A B) (mixHmolar A B) with ⟨self', t?⟩
  rcases t? with _ | t
  · rfl
  · rw [hres] at hfail
    simp at hfail

theorem add_swallow_policy_witness :
    material_stream.add failEnvEngine streamA streamB =
      ((resolveTemp failEnvEngine streamA (mixedDict streamA streamB)
          (mixHmolar streamA streamB)).1, streamB,
        material_stream.init failEnvEngine (mixedDict streamA streamB)
          (mixState0 streamA streamB)) :=
  add_swallow_policy failEnvEngine streamA streamB (by with_unfolding_all decide) (by with_unfolding_all decide)

/-- C7: when steps 1-4 succeed and the envelope resolution goes through,
the temperature of the resulting state is the envelope saturation
temperature at the index of the saturated-liquid enthalpy matched by the
closest-value search against `newMolarEnthalpy`. -/
theorem add_temperature_from_envelope (E : PropEngine) (A B : material_stream)
    (hl T : List ℚ) (val t : ℚ)
    (hflow : A.state.flow + B.state.flow ≠ 0)
    (hmk : (E.mkState (dictKeys (mixedDict A B))
      (dictValues (mixedDict A B))).isSome)
    (henv : E.buildEnvelope (dictKeys (mixedDict A B))
      (dictValues (mixedDict A B)) = some (hl, T))
    (hval : takeClosestCore hl (mixHmolar A B) = some val)
    (hT : T.get? (List.indexOf val hl) = some t) :
    ∀ S, (material_stream.add E A B).2.2 = some S → S.state.temp = t := by
  intro S h
  obtain ⟨u, hu⟩ := Option.isSome_iff_exists.mp hmk
  have hres : (resolveTemp E A (mixedDict A B) (mixHmolar A B)).2 = some t := by
    unfold resolveTemp
    rw [hu]
    dsimp only
    rw [henv]
    dsimp only
    simp only [material_stream.takeClosest]
    rw [hval]
    dsimp only
    rw [pyindex_of_mem hl val (takeClosestCore_mem hl (mixHmolar A B) val hval)]
    dsimp only
    exact hT
  rcases hres2 : resolveTemp E A (mixedDict A B) (mixHmolar A B) with ⟨self', t?⟩
  rw [hres2] at hres
  dsimp only at hres
  subst hres
  have haddTry := addTry_resolve E A B hflow
  rw [hres2] at haddTry
  dsimp only at haddTry
  unfold material_stream.add at h
  rw [haddTry] at h
  dsimp only at h
  rw [(init_eq_some_fields _ _ _ _ h).2]

theorem add_temperature_from_envelope_witness :
    ∃ S, (material_stream.add testEngine streamA streamB).2.2 = some S ∧
      S.state.temp = 350 := by
  rcases hS : (material_stream.add testEngine streamA streamB).2.2 with _ | S
  · exact absurd hS (by with_unfolding_all decide)
  · refine ⟨S, rfl, ?_⟩
    exact add_temperature_from_envelope testEngine streamA streamB
      [1, 3, 5, 7] [300, 350, 400, 450] 3 350
      (by with_unfolding_all decide)
      (by with_unfolding_all decide)
      (by with_unfolding_all decide)
      (by with_unfolding_all decide)
      (by with_unfolding_all decide)
      S hS

/-- C8: during construction the required engine queries are all-or-nothing
(construction returns a stream exactly when the state creation, the state
update and the eight required keyed outputs all succeed, so no required
failure yields a partial object), while the viscosity and conductivity
fields simply take the possibly-absent results of their own queries, so a
failure of either leaves that field absent without failing construction. -/
theorem init_error_policy (E : PropEngine) (c : Dict) (st : StreamState) :
    ((material_stream.init E c st).isSome ↔
      ((E.mkState (dictKeys c) (dictValues c)).isSome ∧
       (E.update (dictKeys c) (dictValues c) st.pres st.temp).isSome ∧
       (E.keyedOutput (dictKeys c) (dictValues c) st.pres st.temp
         PropKey.iPhase).isSome ∧
       (E.keyedOutput (dictKeys c) (dictValues c) st.pres st.temp
         PropKey.iQ).isSome ∧
       (E.keyedOutput (dictKeys c) (dictValues c) st.pres st.temp
         PropKey.iDmass).isSome ∧
       (E.keyedOutput (dictKeys c) (dictValues c) st.pres st.temp
         PropKey.iDmolar).isSome ∧
       (E.keyedOutput (dictKeys c) (dictValues c) st.pres st.temp
         PropKey.iHmass).isSome ∧
       (E.keyedOutput (dictKeys c) (dictValues c) st.pres st.temp
         PropKey.iHmolar).isSome ∧
       (E.keyedOutput (dictKeys c) (dictValues c) st.pres st.temp
         PropKey.iCpmass).isSome ∧
       (E.keyedOutput (dictKeys c) (dictValues c) st.pres st.temp
         PropKey.iCpmolar).isSome)) ∧
    (∀ s, material_stream.init E c st = some s →
      s.Vis = E.keyedOutput (dictKeys c) (dictValues c) st.pres st.temp
        PropKey.iviscosity ∧
      s.cond = E.keyedOutput (dictKeys c) (dictValues c) st.pres st.temp
        PropKey.iconductivity) := by
  unfold material_stream.init
  cases hmk : E.mkState (dictKeys c) (dictValues c) with
  | none => simp
  | some u =>
    cases hup : E.update (dictKeys c) (dictValues c) st.pres st.temp with
    | none => simp
    | some u2 =>
      cases h1 : E.keyedOutput (dictKeys c) (dictValues c) st.pres st.temp
          PropKey.iPhase with
      | none => simp
      | some v1 =>
        cases h2 : E.keyedOutput (dictKeys c) (dictValues c) st.pres st.temp
            PropKey.iQ with
        | none => simp
        | some v2 =>
          cases h3 : E.keyedOutput (dictKeys c) (dictValues c) st.pres st.temp
              PropKey.iDmass with
          | none => simp
          | some v3 =>
            cases h4 : E.keyedOutput (dictKeys c) (dictValues c) st.pres
                st.temp PropKey.iDmolar with
            | none => simp
            | some v4 =>
              cases h5 : E.keyedOutput (dictKeys c) (dictValues c) st.pres
                  st.temp PropKey.iHmass with
              | none => simp
              | some v5 =>
                cases h6 : E.keyedOutput (dictKeys c) (dictValues c) st.pres
                    st.temp PropKey.iHmolar with
                | none => simp
                | some v6 =>
                  cases h7 : E.keyedOutput (dictKeys c) (dictValues c)
                      st.pres st.temp PropKey.iCpmass with
                  | none => simp
                  | some v7 =>
                    cases h8 : E.keyedOutput (dictKeys c) (dictValues c)
                        st.pres st.temp PropKey.iCpmolar with
                    | none => simp
                    | some v8 =>
                      constructor
                      · simp
                      · intro s hs
                        cases hs
                        exact ⟨rfl, rfl⟩

theorem init_error_policy_witness :
    ∃ s, material_stream.init visFailEngine streamA.composition
        streamA.state = some s ∧ s.Vis = none := by
  rcases hs : material_stream.init visFailEngine streamA.composition
      streamA.state with _ | s
  · have h := (init_error_policy visFailEngine streamA.composition
        streamA.state).1.mpr (by with_unfolding_all decide)
    rw [hs] at h
    exact absurd h (by simp)
  · refine ⟨s, rfl, ?_⟩
    have h2 := ((init_error_policy visFailEngine streamA.composition
        streamA.state).2 s hs).1
    rw [h2]
    with_unfolding_all decide

/-! ### Closest-value search: sorted-list specification -/

lemma get?_eq_some_getD (l : List ℚ) (i : Nat) (h : i < l.length) :
    l.get? i = some (l.getD i 0) := by
  rw [List.getD_eq_get?, List.get?_eq_get h]
  rfl

lemma sorted_getD_le (l : List ℚ) (hs : l.Sorted (· ≤ ·)) (i j : Nat)
    (hij : i ≤ j) (hj : j < l.length) : l.getD i 0 ≤ l.getD j 0 := by
  have hi : i < l.length := by omega
  rcases Nat.eq_or_lt_of_le hij with rfl | hlt
  · exact le_refl _
  · have hg := (List.pairwise_iff_get.mp hs) ⟨i, hi⟩ ⟨j, hj⟩ hlt
    rw [List.getD_eq_get?, List.getD_eq_get?, List.get?_eq_get hi,
      List.get?_eq_get hj]
    exact hg

lemma bisectLeftAux_spec (a : List ℚ) (x : ℚ) (hs : a.Sorted (· ≤ ·)) :
    ∀ n lo hi, lo ≤ hi → hi ≤ a.length → hi - lo ≤ n →
      (∀ i, i < lo → a.getD i 0 < x) →
      (∀ i, hi ≤ i → i < a.length → x ≤ a.getD i 0) →
      (lo ≤ bisectLeftAux a x lo hi n ∧ bisectLeftAux a x lo hi n ≤ hi) ∧
      (∀ i, i < bisectLeftAux a x lo hi n → a.getD i 0 < x) ∧
      (∀ i, bisectLeftAux a x lo hi n ≤ i → i < a.length →
        x ≤ a.getD i 0) := by
  intro n
  induction n with
  | zero =>
    intro lo hi h1 h2 h3 hlo hhi
    have he : hi = lo := by omega
    subst he
    simp only [bisectLeftAux]
    exact ⟨⟨le_refl _, le_refl _⟩, hlo, hhi⟩
  | succ n ih =>
    intro lo hi h1 h2 h3 hlo hhi
    by_cases hlh : lo < hi
    · by_cases hcmp : a.getD ((lo + hi) / 2) 0 < x
      · have heq : bisectLeftAux a x lo hi (n + 1) =
            bisectLeftAux a x ((lo + hi) / 2 + 1) hi n := by
          simp only [bisectLeftAux, if_pos hlh, if_pos hcmp]
        rw [heq]
        have hmid : ∀ i, i < (lo + hi) / 2 + 1 → a.getD i 0 < x := by
          intro i hi2
          by_cases hil : i < lo
          · exact hlo i hil
          · have h4 : i ≤ (lo + hi) / 2 := by omega
            have h5 : (lo + hi) / 2 < a.length := by omega
            exact lt_of_le_of_lt (sorted_getD_le a hs i _ h4 h5) hcmp
        have hres := ih ((lo + hi) / 2 + 1) hi (by omega) h2 (by omega) hmid hhi
        exact ⟨⟨le_trans (by omega) hres.1.1, hres.1.2⟩, hres.2.1, hres.2.2⟩
      · have heq : bisectLeftAux a x lo hi (n + 1) =
            bisectLeftAux a x lo ((lo + hi) / 2) n := by
          simp only [bisectLeftAux, if_pos hlh, if_neg hcmp]
        rw [heq]
        have hmid : ∀ i, (lo + hi) / 2 ≤ i → i < a.length → x ≤ a.getD i 0 := by
          intro i hi2 hi3
          exact le_trans (not_lt.mp hcmp) (sorted_getD_le a hs _ i hi2 hi3)
        have hres := ih lo ((lo + hi) / 2) (by omega) (by omega) (by omega) hlo hmid
        exact ⟨⟨hres.1.1, le_trans hres.1.2 (by omega)⟩, hres.2.1, hres.2.2⟩
    · have heq : bisectLeftAux a x lo hi (n + 1) = lo := by
        simp only [bisectLeftAux, if_neg hlh]
      rw [heq]
      have he : hi = lo := by omega
      subst he
      exact ⟨⟨le_refl _, le_refl _⟩, hlo, hhi⟩

lemma bisect_left_spec (a : List ℚ) (x : ℚ) (hs : a.Sorted (· ≤ ·)) :
    bisect_left a x ≤ a.length ∧
    (∀ i, i < bisect_left a x → a.getD i 0 < x) ∧
    (∀ i, bisect_left a x ≤ i → i < a.length → x ≤ a.getD i 0) := by
  have h := bisectLeftAux_spec a x hs a.length 0 a.length (by omega)
    (le_refl _) (by omega) (fun i hi => absurd hi (Nat.not_lt_zero i))
    (fun i h1 h2 => absurd h2 (by omega))
  exact ⟨h.1.2, h.2.1, h.2.2⟩

/-- C3: on a non-empty ascending-sorted sequence the search returns a
value `r`; `r` is the first element when the target is at most the first
element, the last element when the target is at least the last element,
and otherwise (insertion point strictly inside) `r` is whichever of the
two straddling elements is numerically closer to the target, the earlier
(strictly smaller) one when they are equidistant. -/
theorem takeClosest_sorted_spec (s : List ℚ) (t : ℚ) (hne : s ≠ [])
    (hs : s.Sorted (· ≤ ·)) :
    ∃ r, takeClosestCore s t = some r ∧
      (t ≤ s.getD 0 0 → r = s.getD 0 0) ∧
      (s.getD (s.length - 1) 0 ≤ t → r = s.getD (s.length - 1) 0) ∧
      (0 < bisect_left s t → bisect_left s t < s.length →
        ((r = s.getD (bisect_left s t - 1) 0 ∨ r = s.getD (bisect_left s t) 0) ∧
         |r - t| ≤ |s.getD (bisect_left s t - 1) 0 - t| ∧
         |r - t| ≤ |s.getD (bisect_left s t) 0 - t| ∧
         (|s.getD (bisect_left s t) 0 - t| =
            |s.getD (bisect_left s t - 1) 0 - t| →
           r = s.getD (bisect_left s t - 1) 0 ∧
           s.getD (bisect_left s t - 1) 0 < s.getD (bisect_left s t) 0))) := by
  have hlen : 0 < s.length := List.length_pos.mpr hne
  obtain ⟨hple, hlt, hge⟩ := bisect_left_spec s t hs
  simp only [takeClosestCore]
  by_cases hp0 : bisect_left s t = 0
  · refine ⟨s.getD 0 0, ?_, ?_, ?_, ?_⟩
    · rw [if_pos hp0]
      exact get?_eq_some_getD s 0 hlen
    · intro _; rfl
    · intro hlast
      have h1 : t ≤ s.getD 0 0 := hge 0 (by omega) hlen
      have h2 : s.getD 0 0 ≤ s.getD (s.length - 1) 0 :=
        sorted_getD_le s hs 0 (s.length - 1) (by omega) (by omega)
      exact le_antisymm h2 (le_trans hlast h1)
    · intro hp1 _
      omega
  · by_cases hpl : bisect_left s t = s.length
    · refine ⟨s.getD (s.length - 1) 0, ?_, ?_, ?_, ?_⟩
      · rw [if_neg hp0, if_pos hpl]
        exact get?_eq_some_getD s (s.length - 1) (by omega)
      · intro hfirst
        have h1 : s.getD 0 0 < t := hlt 0 (by omega)
        exact absurd hfirst (by linarith)
      · intro _; rfl
      · intro _ hp2
        omega
    · have hp1 : 0 < bisect_left s t := Nat.pos_of_ne_zero hp0
      have hp2 : bisect_left s t < s.length := lt_of_le_of_ne hple hpl
      have hb : s.get? (bisect_left s t - 1) =
          some (s.getD (bisect_left s t - 1) 0) :=
        get?_eq_some_getD s _ (by omega)
      have ha : s.get? (bisect_left s t) =
          some (s.getD (bisect_left s t) 0) :=
        get?_eq_some_getD s _ hp2
      have hbt : s.getD (bisect_left s t - 1) 0 < t := hlt _ (by omega)
      have hta : t ≤ s.getD (bisect_left s t) 0 := hge _ (le_refl _) hp2
      have habs1 : |s.getD (bisect_left s t - 1) 0 - t| =
          t - s.getD (bisect_left s t - 1) 0 := by
        rw [abs_of_nonpos (by linarith)]
        ring
      have habs2 : |s.getD (bisect_left s t) 0 - t| =
          s.getD (bisect_left s t) 0 - t :=
        abs_of_nonneg (by linarith)
      rw [if_neg hp0, if_neg hpl, hb, ha]
      dsimp only
      by_cases hcl : s.getD (bisect_left s t) 0 - t <
          t - s.getD (bisect_left s t - 1) 0
      · refine ⟨s.getD (bisect_left s t) 0, by rw [if_pos hcl], ?_, ?_, ?_⟩
        · intro hfirst
          have h1 : s.getD 0 0 ≤ s.getD (bisect_left s t - 1) 0 :=
            sorted_getD_le s hs 0 _ (by omega) (by omega)
          exact absurd hfirst (by linarith)
        · intro hlast
          have h1 : s.getD (bisect_left s t) 0 ≤ s.getD (s.length - 1) 0 :=
            sorted_getD_le s hs _ (s.length - 1) (by omega) (by omega)
          exact le_antisymm h1 (by linarith)
        · intro _ _
          refine ⟨Or.inr rfl, ?_, le_refl _, ?_⟩
          · rw [habs1, habs2]
            linarith
          · intro htie
            rw [habs1, habs2] at htie
            linarith
      · refine ⟨s.getD (bisect_left s t - 1) 0, by rw [if_neg hcl], ?_, ?_, ?_⟩
        · intro hfirst
          have h1 : s.getD 0 0 ≤ s.getD (bisect_left s t - 1) 0 :=
            sorted_getD_le s hs 0 _ (by omega) (by omega)
          exact absurd hfirst (by linarith)
        · intro hlast
          have h1 : s.getD (bisect_left s t) 0 ≤ s.getD (s.length - 1) 0 :=
            sorted_getD_le s hs _ (s.length - 1) (by omega) (by omega)
          have h2 : s.getD (bisect_left s t) 0 = t := by linarith
          exact absurd hbt (by push_neg at hcl ⊢; linarith)
        · intro _ _
          refine ⟨Or.inl rfl, le_refl _, ?_, ?_⟩
          · rw [habs1, habs2]
            linarith
          · intro _
            exact ⟨rfl, by linarith⟩

theorem takeClosest_sorted_spec_witness :
    ∃ r, takeClosestCore [(1 : ℚ), 3, 5, 7] 4 = some r ∧
      ((4 : ℚ) ≤ [(1 : ℚ), 3, 5, 7].getD 0 0 →
        r = [(1 : ℚ), 3, 5, 7].getD 0 0) ∧
      ([(1 : ℚ), 3, 5, 7].getD ([(1 : ℚ), 3, 5, 7].length - 1) 0 ≤ 4 →
        r = [(1 : ℚ), 3, 5, 7].getD ([(1 : ℚ), 3, 5, 7].length - 1) 0) ∧
      (0 < bisect_left [(1 : ℚ), 3, 5, 7] 4 →
       bisect_left [(1 : ℚ), 3, 5, 7] 4 < [(1 : ℚ), 3, 5, 7].length →
        ((r = [(1 : ℚ), 3, 5, 7].getD (bisect_left [(1 : ℚ), 3, 5, 7] 4 - 1) 0 ∨
          r = [(1 : ℚ), 3, 5, 7].getD (bisect_left [(1 : ℚ), 3, 5, 7] 4) 0) ∧
         |r - 4| ≤
           |[(1 : ℚ), 3, 5, 7].getD (bisect_left [(1 : ℚ), 3, 5, 7] 4 - 1) 0 - 4| ∧
         |r - 4| ≤
           |[(1 : ℚ), 3, 5, 7].getD (bisect_left [(1 : ℚ), 3, 5, 7] 4) 0 - 4| ∧
         (|[(1 : ℚ), 3, 5, 7].getD (bisect_left [(1 : ℚ), 3, 5, 7] 4) 0 - 4| =
            |[(1 : ℚ), 3, 5, 7].getD (bisect_left [(1 : ℚ), 3, 5, 7] 4 - 1) 0 - 4| →
           r = [(1 : ℚ), 3, 5, 7].getD (bisect_left [(1 : ℚ), 3, 5, 7] 4 - 1) 0 ∧
           [(1 : ℚ), 3, 5, 7].getD (bisect_left [(1 : ℚ), 3, 5, 7] 4 - 1) 0 <
             [(1 : ℚ), 3, 5, 7].getD (bisect_left [(1 : ℚ), 3, 5, 7] 4) 0))) :=
  takeClosest_sorted_spec [(1 : ℚ), 3, 5, 7] 4 (by with_unfolding_all decide)
    (by with_unfolding_all decide)

/-! ### Sum of the mixed fractions -/

lemma valuesSum_cons (kv : String × ℚ) (rest : Dict) :
    valuesSum (kv :: rest) = kv.2 + valuesSum rest := by
  simp [valuesSum, dictValues]

lemma sum_map_div (U : List String) (g : String → ℚ) (F : ℚ) :
    (U.map fun k => g k / F).sum = (U.map g).sum / F := by
  induction U with
  | nil => simp
  | cons a U ih => simp [ih, add_div]

lemma sum_map_add_fun (U : List String) (g h : String → ℚ) :
    (U.map fun k => g k + h k).sum = (U.map g).sum + (U.map h).sum := by
  induction U with
  | nil => simp
  | cons a U ih =>
    simp only [List.map_cons, List.sum_cons, ih]
    ring

lemma valuesSum_scale (d : Dict) (f : ℚ) :
    valuesSum (scaleDict d f) = valuesSum d * f := by
  induction d with
  | nil => simp [valuesSum, dictValues, scaleDict]
  | cons kv rest ih =>
    simp only [scaleDict, List.map_cons, valuesSum, dictValues,
      List.sum_cons] at ih ⊢
    rw [ih]
    ring

lemma dictKeys_scale (d : Dict) (f : ℚ) :
    dictKeys (scaleDict d f) = dictKeys d := by
  simp only [dictKeys, scaleDict, List.map_map]
  apply List.map_congr_left
  intro a _
  rfl

lemma dictKeys_filter_key (e : Dict) (p : String → Bool) :
    dictKeys (e.filter fun kv => p kv.1) = (dictKeys e).filter p := by
  induction e with
  | nil => rfl
  | cons kv rest ih =>
    by_cases hp : p kv.1
    · simp [List.filter_cons, hp, dictKeys, ih] at ih ⊢
      exact ih
    · simp [List.filter_cons, hp, dictKeys, ih] at ih ⊢
      exact ih

lemma dictKeys_update (d e : Dict) :
    dictKeys (dictUpdate d e) =
      dictKeys d ++ (dictKeys e).filter (fun k => !(dictKeys d).contains k) := by
  simp only [dictUpdate, dictKeys, List.map_append]
  congr 1
  · simp only [List.map_map]
    apply List.map_congr_left
    intro a _
    rfl
  · exact dictKeys_filter_key e (fun a => !(dictKeys d).contains a)

lemma sum_dictGet_eq_valuesSum (d : Dict) :
    ∀ U : List String, (dictKeys d).Nodup → U.Nodup →
      (∀ k, k ∈ dictKeys d → k ∈ U) →
      (U.map fun k => dictGet d k 0).sum = valuesSum d := by
  induction d with
  | nil =>
    intro U _ _ _
    have hmap : (U.map fun k => dictGet ([] : Dict) k 0) =
        U.map fun _ => (0 : ℚ) :=
      List.map_congr_left (fun a _ => rfl)
    rw [hmap]
    have hz : ∀ V : List String, (V.map fun _ => (0 : ℚ)).sum = 0 := by
      intro V
      induction V with
      | nil => rfl
      | cons a V ihV => simp [ihV]
    rw [hz U]
    rfl
  | cons kv rest ih =>
    intro U hnd hU hsub
    obtain ⟨k0, v⟩ := kv
    have hndk : k0 ∉ dictKeys rest ∧ (dictKeys rest).Nodup := by
      simpa [dictKeys] using hnd
    have hk0U : k0 ∈ U := hsub k0 (by simp [dictKeys])
    obtain ⟨U1, U2, rfl⟩ := List.append_of_mem hk0U
    obtain ⟨hU1, hcons, hdisj⟩ := List.nodup_append.mp hU
    have hk0U1 : k0 ∉ U1 := fun h => hdisj h (List.mem_cons_self k0 U2)
    obtain ⟨hk0U2, hU2⟩ := List.nodup_cons.mp hcons
    have hget_k0 : dictGet ((k0, v) :: rest) k0 0 = v := by
      simp [dictGet, dictGetOpt]
    have hcongr : ∀ V : List String, k0 ∉ V →
        V.map (fun k => dictGet ((k0, v) :: rest) k 0) =
        V.map (fun k => dictGet rest k 0) := by
      intro V hV
      apply List.map_congr_left
      intro a ha
      have hne : ¬ k0 = a := fun h => hV (h ▸ ha)
      simp [dictGet, dictGetOpt, hne]
    have hU12 : (U1 ++ U2).Nodup :=
      List.nodup_append.mpr ⟨hU1, hU2,
        fun a ha1 ha2 => hdisj ha1 (List.mem_cons_of_mem _ ha2)⟩
    have hsub2 : ∀ k, k ∈ dictKeys rest → k ∈ U1 ++ U2 := by
      intro k hk
      have hkne : ¬ k = k0 := fun h => hndk.1 (h ▸ hk)
      have hkU : k ∈ U1 ++ k0 :: U2 :=
        hsub k (List.mem_cons_of_mem _ hk)
      rcases List.mem_append.mp hkU with h | h
      · exact List.mem_append.mpr (Or.inl h)
      · rcases List.mem_cons.mp h with h | h
        · exact absurd h hkne
        · exact List.mem_append.mpr (Or.inr h)
    have hrec := ih (U1 ++ U2) hndk.2 hU12 hsub2
    rw [List.map_append, List.sum_append] at hrec
    rw [List.map_append, List.map_cons, List.sum_append, List.sum_cons,
      hget_k0, hcongr U1 hk0U1, hcongr U2 hk0U2, valuesSum_cons]
    linarith

lemma valuesSum_mixedDict (A B : material_stream)
    (hA : (dictKeys A.composition).Nodup)
    (hB : (dictKeys B.composition).Nodup)
    (hsumA : valuesSum A.composition = 1)
    (hsumB : valuesSum B.composition = 1)
    (hflow : A.state.flow + B.state.flow ≠ 0) :
    valuesSum (mixedDict A B) = 1 := by
  have h0 : valuesSum (mixedDict A B) =
      ((dictKeys (dictUpdate (scaleDict A.composition A.state.flow)
          (scaleDict B.composition B.state.flow))).map
        (fun k => (dictGet (scaleDict A.composition A.state.flow) k 0 +
                   dictGet (scaleDict B.composition B.state.flow) k 0) /
                  (A.state.flow + B.state.flow))).sum := by
    simp only [mixedDict, valuesSum, dictValues, dictKeys, List.map_map]
    apply congrArg List.sum
    apply List.map_congr_left
    intro a _
    rfl
  have hKeq : dictKeys (dictUpdate (scaleDict A.composition A.state.flow)
      (scaleDict B.composition B.state.flow)) =
      dictKeys A.composition ++
        (dictKeys B.composition).filter
          (fun k => !(dictKeys (scaleDict A.composition A.state.flow)).contains k) := by
    rw [dictKeys_update, dictKeys_scale, dictKeys_scale]
  have hcontains : ∀ k, ((dictKeys (scaleDict A.composition
      A.state.flow)).contains k = true) ↔ k ∈ dictKeys A.composition := by
    intro k
    rw [dictKeys_scale]
    exact keys_contains_iff A.composition k
  have hKnodup : (dictKeys A.composition ++
      (dictKeys B.composition).filter
        (fun k => !(dictKeys (scaleDict A.composition
          A.state.flow)).contains k)).Nodup := by
    refine List.nodup_append.mpr ⟨hA, hB.filter _, ?_⟩
    intro a haA haF
    have hp := (List.mem_filter.mp haF).2
    rw [Bool.not_eq_true'] at hp
    exact absurd ((hcontains a).mpr haA) (by rw [hp]; exact Bool.false_ne_true)
  have hsubA : ∀ k, k ∈ dictKeys A.composition →
      k ∈ dictKeys A.composition ++
        (dictKeys B.composition).filter
          (fun k => !(dictKeys (scaleDict A.composition
            A.state.flow)).contains k) :=
    fun k hk => List.mem_append.mpr (Or.inl hk)
  have hsubB : ∀ k, k ∈ dictKeys B.composition →
      k ∈ dictKeys A.composition ++
        (dictKeys B.composition).filter
          (fun k => !(dictKeys (scaleDict A.composition
            A.state.flow)).contains k) := by
    intro k hk
    by_cases hkA : k ∈ dictKeys A.composition
    · exact List.mem_append.mpr (Or.inl hkA)
    · refine List.mem_append.mpr (Or.inr (List.mem_filter.mpr ⟨hk, ?_⟩))
      cases hc : (dictKeys (scaleDict A.composition A.state.flow)).contains k
      · rfl
      · exact absurd ((hcontains k).mp hc) hkA
  rw [h0, hKeq]
  rw [sum_map_div _ (fun k => dictGet (scaleDict A.composition A.state.flow) k 0 +
      dictGet (scaleDict B.composition B.state.flow) k 0)
      (A.state.flow + B.state.flow)]
  rw [sum_map_add_fun _ (fun k => dictGet (scaleDict A.composition A.state.flow) k 0)
      (fun k => dictGet (scaleDict B.composition B.state.flow) k 0)]
  rw [sum_dictGet_eq_valuesSum (scaleDict A.composition A.state.flow) _
      (by rw [dictKeys_scale]; exact hA) hKnodup
      (fun k hk => hsubA k (by rwa [dictKeys_scale] at hk))]
  rw [sum_dictGet_eq_valuesSum (scaleDict B.composition B.state.flow) _
      (by rw [dictKeys_scale]; exact hB) hKnodup
      (fun k hk => hsubB k (by rwa [dictKeys_scale] at hk))]
  rw [valuesSum_scale, valuesSum_scale, hsumA, hsumB, one_mul, one_mul]
  exact div_self hflow

/-- C9: if both input compositions have unique keys and fractions summing
to one, the flows are non-negative and the total flow is positive, then
the fractions of the combined composition also sum to one exactly. -/
theorem add_fractions_sum_one (E : PropEngine) (A B : material_stream)
    (hA : (dictKeys A.composition).Nodup)
    (hB : (dictKeys B.composition).Nodup)
    (hsumA : valuesSum A.composition = 1)
    (hsumB : valuesSum B.composition = 1)
    (hfa : 0 ≤ A.state.flow) (hfb : 0 ≤ B.state.flow)
    (hflow : 0 < A.state.flow + B.state.flow) :
    ∀ S, (material_stream.add E A B).2.2 = some S →
      valuesSum S.composition = 1 := by
  intro S h
  rw [(add_eq_some_cases E A B S h).1]
  exact valuesSum_mixedDict A B hA hB hsumA hsumB (ne_of_gt hflow)

theorem add_fractions_sum_one_witness :
    ∃ S, (material_stream.add testEngine streamA streamB).2.2 = some S ∧
      valuesSum S.composition = 1 := by
  rcases hS : (material_stream.add testEngine streamA streamB).2.2 with _ | S
  · exact absurd hS (by with_unfolding_all decide)
  · exact ⟨S, rfl, add_fractions_sum_one testEngine streamA streamB
      (by with_unfolding_all decide) (by with_unfolding_all decide)
      (by with_unfolding_all decide) (by with_unfolding_all decide)
      (by with_unfolding_all decide) (by with_unfolding_all decide)
      (by with_unfolding_all decide) S hS⟩
